import Mathlib

/-!
Verification of the query-time retrieval-and-answer pipeline of a RAG service.

The development shallowly embeds the Python services (`app/services/retrieval.py`,
`rerank.py`, `llm_router.py`, `embeddings.py`, `orchestrator.py`):

* Python dicts keyed by candidate id are embedded as insertion-ordered
  association lists (`alookup`, `addScore`, `setItem`), matching CPython's
  insertion-ordered dict semantics.
* Python floats are embedded as rationals `ℚ`; the scores computed by the
  services only use `+`, `*`, `/`.
* Python's stable `list.sort(key=..., reverse=True)` is embedded as
  `List.insertionSort` with a descending total preorder (stable in the same way).
* Remote calls (vector store, sparse-embedding service, LLM providers, the
  cross-encoder) are embedded as explicit outcome parameters of type
  `Except Unit _`: `.ok` is a successful reply, `.error` a raised exception.
* Values read from `app.config` (the RRF smoothing constant and the two channel
  weights, the default LLM name, feature switches) are parameters of the
  embedded functions, since `app/config.py` only supplies externally configured
  constants.
-/

namespace RAG

/-- Payload map carried by a stored point; the fields the pipeline reads.
Absent keys (or keys stored with Python `None`) are `none`. -/
structure Payload where
  url : Option String := none
  title : Option String := none
  text : Option String := none
  page_type : Option String := none
  deriving DecidableEq, Repr

/-- A retrieval candidate: the dict produced by `to_hit` and augmented with
`rrf_score`, `boosted_score` and `rerank_score` as it moves through stages.
`rerank_score` is an `Option` because the key is only added by `rerank`. -/
structure Candidate where
  id : String
  score : ℚ := 0
  payload : Payload := {}
  rrf_score : ℚ := 0
  boosted_score : ℚ := 0
  rerank_score : Option ℚ := none
  deriving DecidableEq, Repr

/-- Association-list lookup, embedding Python `d[k]` / `k in d`. -/
def alookup {α : Type} (k : String) : List (String × α) → Option α
  | [] => none
  | p :: r => if p.1 = k then some p.2 else alookup k r

/-- Embeds `scores[pid] = scores.get(pid, 0.0) + c` on an insertion-ordered dict. -/
def addScore (k : String) (c : ℚ) : List (String × ℚ) → List (String × ℚ)
  | [] => [(k, c)]
  | p :: r => if p.1 = k then (p.1, p.2 + c) :: r else p :: addScore k c r

/-- Embeds `items[pid] = h` (when `ow = true`, the dense pass) and
`items[pid] = items.get(pid, h)` (when `ow = false`, the sparse pass). -/
def setItem (ow : Bool) (k : String) (h : Candidate) :
    List (String × Candidate) → List (String × Candidate)
  | [] => [(k, h)]
  | p :: r => if p.1 = k then (p.1, if ow then h else p.2) :: r else p :: setItem ow k h r

/-- The two dicts built by `rrf_fuse`: `scores` and `items`. -/
structure FuseState where
  scores : List (String × ℚ)
  items : List (String × Candidate)
  deriving Repr

/-- One `for rank, h in enumerate(hits, start=1)` loop of `rrf_fuse`,
contributing `w * (1.0 / (K + rank))` per hit; `rank` is threaded as a rational
starting at 1. -/
def rrfPass (w K : ℚ) (ow : Bool) : List Candidate → ℚ → FuseState → FuseState
  | [], _, st => st
  | h :: t, rank, st =>
      rrfPass w K ow t (rank + 1)
        ⟨addScore h.id (w * (1 / (K + rank))) st.scores, setItem ow h.id h st.items⟩

/-- The state after both loops of `rrf_fuse`: dense pass (weight `wd`,
payload overwritten) then sparse pass (weight `ws`, first-seen payload kept). -/
def rrfState (K wd ws : ℚ) (dense sparse : List Candidate) : FuseState :=
  rrfPass ws K false sparse 1 (rrfPass wd K true dense 1 ⟨[], []⟩)

/-- The fused score `rrf_fuse` assigns to the candidate id `pid`
(`none` when the id occurs in neither hit list). -/
def fusedScore (K wd ws : ℚ) (dense sparse : List Candidate) (pid : String) : Option ℚ :=
  alookup pid (rrfState K wd ws dense sparse).scores

/-- Embeds the comprehension entry `{**items[pid], "rrf_score": s}`.  The
`none` branch is unreachable (every scored id is in `items`). -/
def mkFused (items : List (String × Candidate)) (p : String × ℚ) : Candidate :=
  match alookup p.1 items with
  | some it => {it with rrf_score := p.2}
  | none => {id := p.1, rrf_score := p.2}

/-- Descending-by-`rrf_score` ordering used by `fused.sort(..., reverse=True)`. -/
def byRrfDesc (a b : Candidate) : Prop := b.rrf_score ≤ a.rrf_score

instance : DecidableRel byRrfDesc :=
  fun a b => inferInstanceAs (Decidable (b.rrf_score ≤ a.rrf_score))

/-- Embedding of `rrf_fuse(dense_hits, sparse_hits)` from `app/services/retrieval.py`. -/
def rrf_fuse (K wd ws : ℚ) (dense_hits sparse_hits : List Candidate) : List Candidate :=
  let st := rrfState K wd ws dense_hits sparse_hits
  List.insertionSort byRrfDesc (st.scores.map (mkFused st.items))

/-- Specification-side sum of the RRF contributions of list positions whose
hit id is `pid`, with the first position carrying rank `r`. -/
def contribSum (w K : ℚ) (pid : String) : ℚ → List Candidate → ℚ
  | _, [] => 0
  | r, h :: t => (if h.id = pid then w * (1 / (K + r)) else 0) + contribSum w K pid (r + 1) t

/-- 1-based rank of the first hit with id `pid` in a hit list. -/
def rankOf (hits : List Candidate) (pid : String) : Nat :=
  hits.findIdx (fun x => x.id == pid) + 1

/-- Sparse query vector in Qdrant shape: parallel `indices`/`values` lists.
Term ids are kept as strings (Python is untyped here; `embed_sparse` in fact
returns string keys in its mapping branch). -/
structure SparseVec where
  indices : List String := []
  values : List ℚ := []
  deriving DecidableEq, Repr

/-- Embedding of Python `str.lower()`.  Lean's `Char.toLower` implements the
ASCII case mapping, which is the fragment relevant to the `page_type` values
and boost keys handled by the service. -/
def pyLower (s : String) : String := ⟨s.data.map Char.toLower⟩

/-- Embedding of `boost_score(item)` from `hybrid_search`: look up the lowercased
`page_type` payload field (Python truthiness: empty string never matches) in
the caller-supplied `boosts` dict and multiply the RRF score by the factor. -/
def boost_score (boosts : List (String × ℚ)) (it : Candidate) : ℚ :=
  let page_type := pyLower ((it.payload.page_type).getD "")
  if page_type ≠ "" then
    match alookup page_type boosts with
    | some f => it.rrf_score * f
    | none => it.rrf_score
  else it.rrf_score

/-- The `sparse_res` list computed by `hybrid_search`: when both `indices` and
`values` are non-empty the code issues the placeholder client call (a dense
search with empty vector and `limit=0`, embedded as the call outcome
`stubRes`), swallowing any exception; otherwise no sparse call is made. -/
def sparse_res_of (stubRes : Except Unit (List Candidate)) (qs : SparseVec) :
    List Candidate :=
  if qs.indices ≠ [] ∧ qs.values ≠ [] then
    match stubRes with
    | .ok l => l
    | .error _ => []
  else []

/-- The sparse hit list passed to `rrf_fuse`:
`to_hit(sparse_res) if sparse_res else []`. -/
def sparse_input (stubRes : Except Unit (List Candidate)) (qs : SparseVec) :
    List Candidate :=
  if (sparse_res_of stubRes qs).isEmpty then [] else sparse_res_of stubRes qs

/-- Descending-by-`boosted_score` ordering of the final sort in `hybrid_search`. -/
def byBoostDesc (a b : Candidate) : Prop := b.boosted_score ≤ a.boosted_score

instance : DecidableRel byBoostDesc :=
  fun a b => inferInstanceAs (Decidable (b.boosted_score ≤ a.boosted_score))

/-- Embedding of `hybrid_search(query_dense, query_sparse, k, boosts)` from
`app/services/retrieval.py`.  The dense client call's hits are `denseRes`;
`stubRes` is the outcome of the placeholder sparse-path client call. -/
def hybrid_search (K wd ws : ℚ) (denseRes : List Candidate)
    (stubRes : Except Unit (List Candidate)) (query_sparse : SparseVec) (k : Nat)
    (boosts : List (String × ℚ)) : List Candidate :=
  let fused := rrf_fuse K wd ws denseRes (sparse_input stubRes query_sparse)
  let boosted := fused.map (fun it => {it with boosted_score := boost_score boosts it})
  (List.insertionSort byBoostDesc boosted).take k


/-- Score assignment loop of `rerank`: `candidates[i]["rerank_score"] = float(s)`
for each scored index; positions beyond the score list keep their dict as is. -/
def applyScores : List Candidate → List ℚ → List Candidate
  | [], _ => []
  | cs, [] => cs
  | c :: cs, s :: ss => {c with rerank_score := some s} :: applyScores cs ss

/-- Descending ordering by `x.get("rerank_score", 0.0)` used by `rerank`'s
in-place sort. -/
def byRerankDesc (a b : Candidate) : Prop :=
  (b.rerank_score).getD 0 ≤ (a.rerank_score).getD 0

instance : DecidableRel byRerankDesc :=
  fun a b => inferInstanceAs (Decidable ((b.rerank_score).getD 0 ≤ (a.rerank_score).getD 0))

instance : IsTotal Candidate byRerankDesc :=
  ⟨fun a b => le_total ((b.rerank_score).getD 0) ((a.rerank_score).getD 0)⟩

instance : IsTrans Candidate byRerankDesc :=
  ⟨fun _ _ _ hab hbc => le_trans hbc hab⟩

/-- Embedding of `rerank(query, candidates, top_n)` from `app/services/rerank.py`.  The
cross-encoder's batched score list is the parameter `scores`.  The first
component is the caller's list object after the call (the code mutates it:
adds `rerank_score` keys and sorts in place); the second is the returned
value, `candidates[:top_n]` of that same object. -/
def rerank (scores : List ℚ) (candidates : List Candidate) (top_n : Nat) :
    List Candidate × List Candidate :=
  if candidates.isEmpty then (candidates, [])
  else
    let sorted := List.insertionSort byRerankDesc (applyScores candidates scores)
    (sorted, sorted.take top_n)

/-- The fixed user-facing fallback string of `generate_answer`. -/
def providersUnavailable : String :=
  "Извините, провайдеры LLM недоступны. Попробуйте позже."

/-- Dispatch of one loop iteration of `generate_answer`: which provider call
the branch on the provider name selects (`none`: no branch matches, the loop
body does nothing).  `y`, `g`, `dk` are the outcomes `_yandex_complete`,
`_gpt5_complete` and `_deepseek_complete` would produce if called. -/
def tryProv (p : String) (y g dk : Except Unit String) : Option (Except Unit String) :=
  if p = "YANDEX" then some y
  else if p = "GPT5" then some g
  else if p = "DEEPSEEK" then some dk
  else none

/-- The `for provider in order` loop of `generate_answer`.  Returns the answer
string together with the list of providers actually called (in call order). -/
def runChain (fmt : String → String) (y g dk : Except Unit String) :
    List String → String × List String
  | [] => (providersUnavailable, [])
  | p :: rest =>
    match tryProv p y g dk with
    | none => runChain fmt y g dk rest
    | some (.ok t) => (fmt t, [p])
    | some (.error _) =>
      let r := runChain fmt y g dk rest
      (r.1, p :: r.2)

/-- Embedding of `generate_answer(query, context, policy)` from `app/services/llm_router.py`,
restricted to its provider-fallback behaviour: `order = [DEFAULT_LLM, "GPT5",
"DEEPSEEK"]`; the first successful completion is formatted by
`_format_for_telegram` (the parameter `fmt`) and returned; exceptions select
the next provider; if all fail the fixed fallback string is returned. -/
def generate_answer (fmt : String → String) (defaultLLM : String)
    (y g dk : Except Unit String) : String × List String :=
  runChain fmt y g dk [defaultLLM, "GPT5", "DEEPSEEK"]

/-- The empty sparse vector `{"indices": [], "values": []}`. -/
def emptySparse : SparseVec := ⟨[], []⟩

/-- JSON value as returned by `resp.json()`, as far as `embed_sparse` inspects
it: numbers (JSON booleans, which `float()` also converts, are subsumed by
their numeric value), `null`, arrays, and objects as insertion-ordered pairs.
String leaves are not modelled: Python's `float()` on a string succeeds
exactly on numeric literals, a case no claim exercises. -/
inductive JVal
  | num (q : ℚ)
  | null
  | arr (elems : List JVal)
  | dict (pairs : List (String × JVal))
  deriving Repr

/-- Python `float(v)` on a JSON value: numbers convert; `None`, lists and
dicts raise `TypeError` (`.error`). -/
def pyFloat : JVal → Except Unit ℚ
  | .num q => .ok q
  | .null => .error ()
  | .arr _ => .error ()
  | .dict _ => .error ()

/-- The comprehension `[float(data[k]) for k in indices]` over the dict's
values in key order: any non-convertible weight raises. -/
def mapFloat : List JVal → Except Unit (List ℚ)
  | [] => .ok []
  | v :: r =>
    match pyFloat v with
    | .error _ => .error ()
    | .ok q =>
      match mapFloat r with
      | .error _ => .error ()
      | .ok qs => .ok (q :: qs)

/-- Value returned by `embed_sparse` when it does return: the `{indices,
values}` dict it builds (also the empty-vector shape), or the parsed reply
passed through unconverted by the final `return data` — the code does not
validate that shape. -/
inductive SparseResult
  | vec (indices : List String) (values : List ℚ)
  | raw (data : JVal)
  deriving Repr

/-- Embedding of `embed_sparse(text)` from `app/services/embeddings.py`.
`use_sparse` is `CONFIG.use_sparse`; `callResult` is the outcome of the code
inside the `try`: the remote `POST /embed` call, `raise_for_status()` and
`resp.json()` (`.error` covers timeout, non-2xx and an unparseable body, and
yields the empty vector).  The conversion after the `try/except` is NOT
protected: a parsed dict reply missing `indices` or `values` is converted with
`float(data[k])`, and a non-convertible weight raises out of the function —
the result `.error ()` models that uncaught `TypeError`.  A dict already
carrying both keys, and any non-dict reply, are returned unconverted.  The
cached and uncached code paths are textually identical in the source and are
embedded once. -/
def embed_sparse (use_sparse : Bool) (callResult : Except Unit JVal) :
    Except Unit SparseResult :=
  if use_sparse = false then .ok (.vec [] [])
  else
    match callResult with
    | .error _ => .ok (.vec [] [])
    | .ok data =>
      match data with
      | .dict pairs =>
        if "indices" ∉ pairs.map Prod.fst ∨ "values" ∉ pairs.map Prod.fst then
          match mapFloat (pairs.map Prod.snd) with
          | .error _ => .error ()
          | .ok vs => .ok (.vec (pairs.map Prod.fst) vs)
        else .ok (.raw data)
      | _ => .ok (.raw data)

/-- A `{title, url}` entry of the result envelope's `sources`. -/
structure Source where
  title : String
  url : String
  deriving DecidableEq, Repr

/-- The result envelope built by `handle_query` (the timing field and metric
side effects are not modelled). -/
structure Envelope where
  answer : Option String := none
  sources : List Source := []
  channel : String
  chat_id : String
  error : Option String := none
  message : Option String := none
  deriving DecidableEq, Repr

/-- Outcome of every fallible stage call of one `handle_query` run:
`process_query`, `embed_dense`, `embed_sparse`, `hybrid_search`, `rerank`,
`generate_answer`, in pipeline order. -/
structure Outcomes where
  qp : Except Unit (String × List (String × ℚ))
  dense : Except Unit (List ℚ)
  sparse : Except Unit SparseVec
  search : Except Unit (List Candidate)
  rer : Except Unit (List Candidate)
  llm : Except Unit String

/-- Step 7 of `handle_query`: collect `{title, url}` per doc whose payload has
a truthy `url`, with title defaulting to "Документация". -/
def extract_sources (docs : List Candidate) : List Source :=
  docs.filterMap fun d =>
    match d.payload.url with
    | none => none
    | some u =>
      if u = "" then none
      else some ⟨(d.payload.title).getD "Документация", u⟩

def msgQueryProcessingFailed : String :=
  "Ошибка обработки запроса. Попробуйте переформулировать вопрос."

def msgEmbeddingFailed : String :=
  "Сервис эмбеддингов временно недоступен. Попробуйте позже."

def msgNoResults : String :=
  "К сожалению, не удалось найти релевантную информацию по вашему запросу. Попробуйте переформулировать вопрос или использовать другие ключевые слова."

def msgSearchFailed : String :=
  "Ошибка поиска в базе знаний. Попробуйте позже."

def msgLlmFailed : String :=
  "Сервис генерации ответов временно недоступен. Попробуйте позже."

/-- Embedding of `handle_query(channel, chat_id, message)` from
`app/services/orchestrator.py`, over the stage outcomes of the run.  A failed
sparse embedding is replaced by the empty sparse vector and the run continues;
a failed rerank falls back to `candidates[:10]`; the other failures terminate
with the stage's error envelope, in source order. -/
def handle_query (o : Outcomes) (channel chat_id : String) : Envelope :=
  match o.qp with
  | .error _ =>
    { error := some "query_processing_failed", message := some msgQueryProcessingFailed,
      channel := channel, chat_id := chat_id }
  | .ok _ =>
    match o.dense with
    | .error _ =>
      { error := some "embedding_failed", message := some msgEmbeddingFailed,
        channel := channel, chat_id := chat_id }
    | .ok _ =>
      let _q_sparse := match o.sparse with
        | .ok v => v
        | .error _ => emptySparse
      match o.search with
      | .error _ =>
        { error := some "search_failed", message := some msgSearchFailed,
          channel := channel, chat_id := chat_id }
      | .ok candidates =>
        if candidates.isEmpty then
          { error := some "no_results", message := some msgNoResults,
            channel := channel, chat_id := chat_id }
        else
          let top_docs := match o.rer with
            | .ok d => d
            | .error _ => candidates.take 10
          match o.llm with
          | .error _ =>
            { error := some "llm_failed", message := some msgLlmFailed,
              channel := channel, chat_id := chat_id }
          | .ok answer =>
            { answer := some answer, sources := extract_sources top_docs,
              channel := channel, chat_id := chat_id }

/-- Example candidate with `page_type` `"Guide"`, as returned by the dense search. -/
def cGuide : Candidate := {id := "a", payload := {page_type := some "Guide"}}

/-- The candidate `cGuide` after fusion and boosting with `{"guide": 2}`. -/
def cGuideOut : Candidate :=
  { id := "a", payload := {page_type := some "Guide"}, rrf_score := 1/61,
    boosted_score := 2/61 }

/-- Two example reranked docs sharing one url, with distinct titles. -/
def cUrl1 : Candidate := {id := "d1", payload := {url := some "https://e/a", title := some "T1"}}

def cUrl2 : Candidate := {id := "d2", payload := {url := some "https://e/a", title := some "T2"}}

/-- Stage outcomes of a fully successful run whose reranked docs share a url. -/
def exOutcomesDup : Outcomes :=
  { qp := .ok ("q", []), dense := .ok [], sparse := .ok emptySparse,
    search := .ok [cUrl1], rer := .ok [cUrl1, cUrl2], llm := .ok "ans" }

/-- Example candidate with lowercase `page_type` `"guide"`. -/
def cLower : Candidate := {id := "a", payload := {page_type := some "guide"}}

/-- The candidate `cLower` after fusion with no boost applied (the boost key is capitalized). -/
def cLowerOut : Candidate :=
  { id := "a", payload := {page_type := some "guide"}, rrf_score := 1/61,
    boosted_score := 1/61 }

/-- Stage outcomes of a run whose hybrid search succeeds with no candidates. -/
def exOutcomesEmpty : Outcomes :=
  { qp := .ok ("q", []), dense := .ok [], sparse := .ok emptySparse,
    search := .ok [], rer := .error (), llm := .error () }

/-- Stage outcomes of a run whose hybrid search raises. -/
def exOutcomesSearchErr : Outcomes :=
  { qp := .ok ("q", []), dense := .ok [], sparse := .ok emptySparse,
    search := .error (), rer := .error (), llm := .error () }

theorem alookup_addScore_self (k : String) (c : ℚ) (l : List (String × ℚ)) :
    alookup k (addScore k c l) = some ((alookup k l).getD 0 + c) := by
  induction l with
  | nil => simp [alookup, addScore]
  | cons p r ih =>
    by_cases h : p.1 = k
    · simp [alookup, addScore, h]
    · simp [alookup, addScore, h, ih]

theorem alookup_addScore_ne (k k' : String) (hne : k' ≠ k) (c : ℚ)
    (l : List (String × ℚ)) : alookup k (addScore k' c l) = alookup k l := by
  induction l with
  | nil => simp [alookup, addScore, hne]
  | cons p r ih =>
    have hkk : k ≠ k' := Ne.symm hne
    by_cases h : p.1 = k'
    · simp [alookup, addScore, h, hne, hkk]
    · by_cases h2 : p.1 = k
      · simp [alookup, addScore, h, h2, hkk]
      · simp [alookup, addScore, h, h2, ih]

theorem keys_addScore (k : String) (c : ℚ) (l : List (String × ℚ)) :
    (addScore k c l).map Prod.fst =
      if k ∈ l.map Prod.fst then l.map Prod.fst else l.map Prod.fst ++ [k] := by
  induction l with
  | nil => simp [addScore]
  | cons p r ih =>
    by_cases h : p.1 = k
    · simp [addScore, h]
    · have hne : ¬ k = p.1 := fun hh => h hh.symm
      by_cases hm : k ∈ r.map Prod.fst
      · simp [addScore, h, ih, hm, hne]
      · simp [addScore, h, ih, hm, hne]

theorem nodup_keys_addScore (k : String) (c : ℚ) (l : List (String × ℚ))
    (h : (l.map Prod.fst).Nodup) : ((addScore k c l).map Prod.fst).Nodup := by
  rw [keys_addScore]
  by_cases hm : k ∈ l.map Prod.fst
  · simpa [hm] using h
  · simp [hm, List.nodup_append, h]

theorem rrfPass_alookup_of_mem (w K : ℚ) (ow : Bool) (pid : String) :
    ∀ (hits : List Candidate) (r : ℚ) (st : FuseState),
      (pid ∈ hits.map Candidate.id ∨ (alookup pid st.scores).isSome) →
      alookup pid (rrfPass w K ow hits r st).scores =
        some ((alookup pid st.scores).getD 0 + contribSum w K pid r hits) := by
  intro hits
  induction hits with
  | nil =>
    intro r st hmem
    rcases hmem with hmem | hsome
    · simp at hmem
    · rcases Option.isSome_iff_exists.mp hsome with ⟨v, hv⟩
      simp [rrfPass, contribSum, hv]
  | cons h t ih =>
    intro r st hmem
    simp only [rrfPass]
    by_cases hid : h.id = pid
    · subst hid
      have hpre : h.id ∈ t.map Candidate.id ∨
          (alookup h.id
            (FuseState.mk (addScore h.id (w * (1 / (K + r))) st.scores)
              (setItem ow h.id h st.items)).scores).isSome :=
        Or.inr (by simp [alookup_addScore_self])
      rw [ih (r + 1) _ hpre]
      simp only [alookup_addScore_self]
      simp [contribSum]
      ring
    · have hsc := alookup_addScore_ne pid h.id hid (w * (1 / (K + r))) st.scores
      have hmem' : pid ∈ t.map Candidate.id ∨ (alookup pid st.scores).isSome := by
        rcases hmem with hmem | hsome
        · rw [List.map_cons, List.mem_cons] at hmem
          rcases hmem with heq | ht
          · exact absurd heq.symm hid
          · exact Or.inl ht
        · exact Or.inr hsome
      have hpre : pid ∈ t.map Candidate.id ∨
          (alookup pid
            (FuseState.mk (addScore h.id (w * (1 / (K + r))) st.scores)
              (setItem ow h.id h st.items)).scores).isSome := by
        rcases hmem' with hm | hsome
        · exact Or.inl hm
        · exact Or.inr (by simp only [hsc]; exact hsome)
      rw [ih (r + 1) _ hpre]
      simp only [hsc]
      simp [contribSum, hid]

theorem rrfPass_alookup_of_not_mem (w K : ℚ) (ow : Bool) (pid : String) :
    ∀ (hits : List Candidate) (r : ℚ) (st : FuseState),
      pid ∉ hits.map Candidate.id →
      alookup pid (rrfPass w K ow hits r st).scores = alookup pid st.scores := by
  intro hits
  induction hits with
  | nil => intro r st _; rfl
  | cons h t ih =>
    intro r st hmem
    have hid : h.id ≠ pid := by
      intro hh
      exact hmem (by simp [hh])
    have ht : pid ∉ t.map Candidate.id := by
      intro hh
      exact hmem (by simp [hh])
    simp only [rrfPass]
    rw [ih (r + 1) _ ht]
    exact alookup_addScore_ne pid h.id hid (w * (1 / (K + r))) st.scores

theorem contribSum_of_not_mem (w K : ℚ) (pid : String) :
    ∀ (hits : List Candidate) (r : ℚ), pid ∉ hits.map Candidate.id →
      contribSum w K pid r hits = 0 := by
  intro hits
  induction hits with
  | nil => intro r _; rfl
  | cons h t ih =>
    intro r hmem
    have hid : h.id ≠ pid := fun hh => hmem (by simp [hh])
    have ht : pid ∉ t.map Candidate.id := fun hh => hmem (by simp [hh])
    simp [contribSum, hid, ih (r + 1) ht]

theorem fusedScore_eq (K wd ws : ℚ) (dense sparse : List Candidate) (pid : String) :
    fusedScore K wd ws dense sparse pid =
      if pid ∈ dense.map Candidate.id ∨ pid ∈ sparse.map Candidate.id then
        some (contribSum wd K pid 1 dense + contribSum ws K pid 1 sparse)
      else none := by
  unfold fusedScore rrfState
  by_cases hd : pid ∈ dense.map Candidate.id
  · have h1 := rrfPass_alookup_of_mem wd K true pid dense 1 ⟨[], []⟩ (Or.inl hd)
    have h1' : alookup pid (rrfPass wd K true dense 1 ⟨[], []⟩).scores =
        some (contribSum wd K pid 1 dense) := by
      rw [h1]; simp [alookup]
    have h2 := rrfPass_alookup_of_mem ws K false pid sparse 1
      (rrfPass wd K true dense 1 ⟨[], []⟩) (Or.inr (by rw [h1']; rfl))
    rw [h2, h1']
    simp [hd]
  · by_cases hs : pid ∈ sparse.map Candidate.id
    · have h1 := rrfPass_alookup_of_not_mem wd K true pid dense 1 ⟨[], []⟩ hd
      have h1' : alookup pid (rrfPass wd K true dense 1 ⟨[], []⟩).scores = none := by
        rw [h1]; rfl
      have h2 := rrfPass_alookup_of_mem ws K false pid sparse 1
        (rrfPass wd K true dense 1 ⟨[], []⟩) (Or.inl hs)
      rw [h2, h1']
      simp [hd, hs, contribSum_of_not_mem wd K pid dense 1 hd]
    · have h1 := rrfPass_alookup_of_not_mem wd K true pid dense 1 ⟨[], []⟩ hd
      have h2 := rrfPass_alookup_of_not_mem ws K false pid sparse 1
        (rrfPass wd K true dense 1 ⟨[], []⟩) hs
      rw [h2, h1]
      simp [hd, hs]
      rfl

theorem setItem_id_inv (ow : Bool) (k : String) (h : Candidate) (hk : h.id = k) :
    ∀ (l : List (String × Candidate)), (∀ p ∈ l, (Prod.snd p).id = p.1) →
      ∀ p ∈ setItem ow k h l, (Prod.snd p).id = p.1 := by
  intro l
  induction l with
  | nil =>
    intro _ p hp
    simp [setItem] at hp
    simp [hp, hk]
  | cons q r ih =>
    intro hinv p hp
    by_cases hq : q.1 = k
    · simp only [setItem, hq, if_pos] at hp
      rcases List.mem_cons.mp hp with heq | ht
      · subst heq
        cases ow with
        | true => simpa [hq] using hk
        | false => simpa [hq] using hinv q (by simp)
      · exact hinv p (List.mem_cons_of_mem q ht)
    · simp only [setItem, hq, if_neg, not_false_iff] at hp
      rcases List.mem_cons.mp hp with heq | ht
      · subst heq; exact hinv p (by simp)
      · exact ih (fun p hp => hinv p (List.mem_cons_of_mem q hp)) p ht

theorem rrfPass_items_inv (w K : ℚ) (ow : Bool) :
    ∀ (hits : List Candidate) (r : ℚ) (st : FuseState),
      (∀ p ∈ st.items, (Prod.snd p).id = p.1) →
      ∀ p ∈ (rrfPass w K ow hits r st).items, (Prod.snd p).id = p.1 := by
  intro hits
  induction hits with
  | nil => intro r st hinv; exact hinv
  | cons h t ih =>
    intro r st hinv
    simp only [rrfPass]
    exact ih (r + 1) _ (setItem_id_inv ow h.id h rfl st.items hinv)

theorem rrfPass_keys_nodup (w K : ℚ) (ow : Bool) :
    ∀ (hits : List Candidate) (r : ℚ) (st : FuseState),
      ((st.scores.map Prod.fst).Nodup) →
      (((rrfPass w K ow hits r st).scores.map Prod.fst).Nodup) := by
  intro hits
  induction hits with
  | nil => intro r st hnd; exact hnd
  | cons h t ih =>
    intro r st hnd
    simp only [rrfPass]
    exact ih (r + 1) _ (nodup_keys_addScore h.id _ st.scores hnd)

theorem rrfState_items_inv (K wd ws : ℚ) (dense sparse : List Candidate) :
    ∀ p ∈ (rrfState K wd ws dense sparse).items, (Prod.snd p).id = p.1 := by
  unfold rrfState
  exact rrfPass_items_inv ws K false sparse 1 _
    (rrfPass_items_inv wd K true dense 1 ⟨[], []⟩ (by simp))

theorem rrfState_keys_nodup (K wd ws : ℚ) (dense sparse : List Candidate) :
    (((rrfState K wd ws dense sparse).scores.map Prod.fst).Nodup) := by
  unfold rrfState
  exact rrfPass_keys_nodup ws K false sparse 1 _
    (rrfPass_keys_nodup wd K true dense 1 ⟨[], []⟩ (by simp))

theorem alookup_mem {α : Type} (k : String) (v : α) :
    ∀ (l : List (String × α)), alookup k l = some v → (k, v) ∈ l := by
  intro l
  induction l with
  | nil => intro hc; simp [alookup] at hc
  | cons p r ih =>
    intro hc
    by_cases h : p.1 = k
    · simp only [alookup, h, if_pos] at hc
      have : p = (k, v) := by
        cases p
        simp at h hc ⊢
        exact ⟨h, hc⟩
      simp [← this]
    · simp only [alookup, h, if_neg, not_false_iff] at hc
      exact List.mem_cons_of_mem p (ih hc)

theorem mem_alookup {α : Type} (k : String) (v : α) :
    ∀ (l : List (String × α)), (l.map Prod.fst).Nodup → (k, v) ∈ l →
      alookup k l = some v := by
  intro l
  induction l with
  | nil => intro _ hm; simp at hm
  | cons p r ih =>
    intro hnd hm
    rcases List.mem_cons.mp hm with heq | ht
    · simp [alookup, ← heq]
    · have hk : k ∈ r.map Prod.fst := List.mem_map.mpr ⟨(k, v), ht, rfl⟩
      rw [List.map_cons] at hnd
      have hp1 : p.1 ≠ k := by
        intro hh
        have hnotin := (List.nodup_cons.mp hnd).1
        rw [hh] at hnotin
        exact hnotin hk
      simp only [alookup, hp1, if_neg, not_false_iff]
      exact ih (List.nodup_cons.mp hnd).2 ht

theorem alookup_isSome_iff {α : Type} (k : String) :
    ∀ (l : List (String × α)), (alookup k l).isSome = true ↔ k ∈ l.map Prod.fst := by
  intro l
  induction l with
  | nil => simp [alookup]
  | cons p r ih =>
    by_cases h : p.1 = k
    · simp [alookup, h]
    · simp [alookup, h, ih, Ne.symm h]

theorem mkFused_rrf_score (items : List (String × Candidate)) (p : String × ℚ) :
    (mkFused items p).rrf_score = p.2 := by
  unfold mkFused
  cases alookup p.1 items <;> rfl

theorem mkFused_id (items : List (String × Candidate))
    (hinv : ∀ q ∈ items, (Prod.snd q).id = q.1) (p : String × ℚ) :
    (mkFused items p).id = p.1 := by
  unfold mkFused
  cases hl : alookup p.1 items with
  | none => rfl
  | some it => exact hinv (p.1, it) (alookup_mem p.1 it items hl)

/-- Every member of the fused list carries exactly the fused score of its id. -/
theorem rrf_fuse_mem_score (K wd ws : ℚ) (dense sparse : List Candidate)
    (c : Candidate) (hc : c ∈ rrf_fuse K wd ws dense sparse) :
    fusedScore K wd ws dense sparse c.id = some c.rrf_score := by
  unfold rrf_fuse at hc
  have hperm := List.perm_insertionSort byRrfDesc
    ((rrfState K wd ws dense sparse).scores.map (mkFused (rrfState K wd ws dense sparse).items))
  have hmap : c ∈ (rrfState K wd ws dense sparse).scores.map
      (mkFused (rrfState K wd ws dense sparse).items) := hperm.subset hc
  obtain ⟨p, hp, hcp⟩ := List.mem_map.mp hmap
  have hid : c.id = p.1 := by
    rw [← hcp]
    exact mkFused_id _ (rrfState_items_inv K wd ws dense sparse) p
  have hsc : c.rrf_score = p.2 := by
    rw [← hcp]
    exact mkFused_rrf_score _ p
  unfold fusedScore
  rw [hid, hsc]
  exact mem_alookup p.1 p.2 _ (rrfState_keys_nodup K wd ws dense sparse)
    (by cases p; exact hp)

/-- The fused list contains exactly one candidate per id occurring in either
hit list, and no candidate for any other id. -/
theorem rrf_fuse_countP (K wd ws : ℚ) (dense sparse : List Candidate) (pid : String) :
    (rrf_fuse K wd ws dense sparse).countP (fun c => c.id == pid) =
      if pid ∈ dense.map Candidate.id ∨ pid ∈ sparse.map Candidate.id then 1 else 0 := by
  unfold rrf_fuse
  have hperm := List.perm_insertionSort byRrfDesc
    ((rrfState K wd ws dense sparse).scores.map (mkFused (rrfState K wd ws dense sparse).items))
  rw [hperm.countP_eq]
  rw [List.countP_map]
  have hcong : (rrfState K wd ws dense sparse).scores.countP
      ((fun c => c.id == pid) ∘ mkFused (rrfState K wd ws dense sparse).items) =
      (rrfState K wd ws dense sparse).scores.countP (fun p => p.1 == pid) := by
    apply List.countP_congr
    intro p hp
    simp only [Function.comp_apply]
    rw [mkFused_id _ (rrfState_items_inv K wd ws dense sparse) p]
  rw [hcong]
  have hkeys : (rrfState K wd ws dense sparse).scores.countP (fun p => p.1 == pid) =
      ((rrfState K wd ws dense sparse).scores.map Prod.fst).count pid := by
    rw [List.count, List.countP_map]
    rfl
  rw [hkeys]
  have hiff : pid ∈ (rrfState K wd ws dense sparse).scores.map Prod.fst ↔
      (pid ∈ dense.map Candidate.id ∨ pid ∈ sparse.map Candidate.id) := by
    rw [← alookup_isSome_iff]
    have := fusedScore_eq K wd ws dense sparse pid
    unfold fusedScore at this
    rw [this]
    by_cases hmem : pid ∈ dense.map Candidate.id ∨ pid ∈ sparse.map Candidate.id
    · simp [hmem]
    · simp [hmem]
  by_cases hmem : pid ∈ dense.map Candidate.id ∨ pid ∈ sparse.map Candidate.id
  · rw [if_pos hmem]
    exact List.count_eq_one_of_mem (rrfState_keys_nodup K wd ws dense sparse)
      (hiff.mpr hmem)
  · rw [if_neg hmem]
    exact List.count_eq_zero_of_not_mem (fun hmm => hmem (hiff.mp hmm))

theorem contribSum_eq_single (w K : ℚ) (pid : String) :
    ∀ (hits : List Candidate) (r : ℚ), (hits.map Candidate.id).Nodup →
      pid ∈ hits.map Candidate.id →
      contribSum w K pid r hits =
        w * (1 / (K + r + ((hits.findIdx (fun x => x.id == pid) : ℕ) : ℚ))) := by
  intro hits
  induction hits with
  | nil => intro r _ hm; simp at hm
  | cons h t ih =>
    intro r hnd hm
    by_cases hid : h.id = pid
    · have hfi : (h :: t).findIdx (fun x => x.id == pid) = 0 := by
        simp [List.findIdx_cons, hid]
      have hnott : pid ∉ t.map Candidate.id := by
        rw [List.map_cons] at hnd
        have hni := (List.nodup_cons.mp hnd).1
        rw [hid] at hni
        exact hni
      rw [hfi]
      simp [contribSum, hid, contribSum_of_not_mem w K pid t (r + 1) hnott]
    · have hmt : pid ∈ t.map Candidate.id := by
        rw [List.map_cons, List.mem_cons] at hm
        rcases hm with heq | h2
        · exact absurd heq.symm hid
        · exact h2
      have hndt : (t.map Candidate.id).Nodup := by
        rw [List.map_cons] at hnd
        exact (List.nodup_cons.mp hnd).2
      have hfi : (h :: t).findIdx (fun x => x.id == pid) =
          t.findIdx (fun x => x.id == pid) + 1 := by
        have hbeq : (h.id == pid) = false := beq_eq_false_iff_ne.mpr hid
        simp [List.findIdx_cons, hbeq]
      rw [hfi]
      have harg : K + r + (((t.findIdx (fun x => x.id == pid) + 1 : ℕ)) : ℚ) =
          K + (r + 1) + ((t.findIdx (fun x => x.id == pid) : ℕ) : ℚ) := by
        push_cast
        ring
      rw [harg, ← ih (r + 1) hndt hmt]
      simp [contribSum, hid]

/-- Claim C1: in `rrf_fuse`, a candidate id present in both hit lists is fused
exactly once and its `rrf_score` is `W_DENSE * (1/(RRF_K + rank_dense)) +
W_SPARSE * (1/(RRF_K + rank_sparse))` with 1-based ranks in list order; an id
present in exactly one list receives exactly that single list's weighted
contribution. -/
theorem rrf_fuse_per_id_score (K wd ws : ℚ) (dense sparse : List Candidate)
    (pid : String)
    (hd : (dense.map Candidate.id).Nodup) (hs : (sparse.map Candidate.id).Nodup) :
    ((rrf_fuse K wd ws dense sparse).countP (fun c => c.id == pid) =
      if pid ∈ dense.map Candidate.id ∨ pid ∈ sparse.map Candidate.id then 1 else 0) ∧
    (∀ c ∈ rrf_fuse K wd ws dense sparse, c.id = pid →
      c.rrf_score =
        (if pid ∈ dense.map Candidate.id
          then wd * (1 / (K + ((rankOf dense pid : ℕ) : ℚ))) else 0) +
        (if pid ∈ sparse.map Candidate.id
          then ws * (1 / (K + ((rankOf sparse pid : ℕ) : ℚ))) else 0)) := by
  constructor
  · exact rrf_fuse_countP K wd ws dense sparse pid
  · intro c hc hcid
    have hsc := rrf_fuse_mem_score K wd ws dense sparse c hc
    rw [hcid, fusedScore_eq] at hsc
    by_cases hd' : pid ∈ dense.map Candidate.id
    · by_cases hs' : pid ∈ sparse.map Candidate.id
      · rw [if_pos (Or.inl hd')] at hsc
        have hval := Option.some.inj hsc
        rw [if_pos hd', if_pos hs', ← hval,
          contribSum_eq_single wd K pid dense 1 hd hd',
          contribSum_eq_single ws K pid sparse 1 hs hs']
        unfold rankOf
        push_cast
        ring
      · rw [if_pos (Or.inl hd')] at hsc
        have hval := Option.some.inj hsc
        rw [if_pos hd', if_neg hs', ← hval,
          contribSum_eq_single wd K pid dense 1 hd hd',
          contribSum_of_not_mem ws K pid sparse 1 hs']
        unfold rankOf
        push_cast
        ring
    · by_cases hs' : pid ∈ sparse.map Candidate.id
      · rw [if_pos (Or.inr hs')] at hsc
        have hval := Option.some.inj hsc
        rw [if_neg hd', if_pos hs', ← hval,
          contribSum_eq_single ws K pid sparse 1 hs hs',
          contribSum_of_not_mem wd K pid dense 1 hd']
        unfold rankOf
        push_cast
        ring
      · rw [if_neg (by intro hh; rcases hh with hh | hh; exact hd' hh; exact hs' hh)] at hsc
        exact absurd hsc (by simp)

/-- Witness for C1 at a concrete input: dense hits `[a, b]`, sparse hits
`[b, c]`, `RRF_K = 60`, dense weight `1`, sparse weight `1/2`, id `b`. -/
theorem rrf_fuse_per_id_score_witness :
    ((([({id := "a"} : Candidate), ({id := "b"} : Candidate)].map Candidate.id).Nodup) ∧
      (([({id := "b"} : Candidate), ({id := "c"} : Candidate)].map Candidate.id).Nodup)) ∧
    (rrf_fuse 60 1 (1/2) [({id := "a"} : Candidate), ({id := "b"} : Candidate)]
        [({id := "b"} : Candidate), ({id := "c"} : Candidate)]).countP
      (fun c => c.id == "b") = 1 := by
  refine ⟨⟨by decide, by decide⟩, ?_⟩
  have h := (rrf_fuse_per_id_score 60 1 (1/2)
    [({id := "a"} : Candidate), ({id := "b"} : Candidate)]
    [({id := "b"} : Candidate), ({id := "c"} : Candidate)] "b"
    (by decide) (by decide)).1
  rw [h]
  decide

/-- Claim C5 counterexample: with distinct configured channel weights
(`W_DENSE = 1`, `W_SPARSE = 1/2`, `RRF_K = 60`), fusing `([a], [b])` and
fusing `([b], [a])` assign the id `a` different fused scores, so channel-order
commutativity fails as stated. -/
theorem rrf_fuse_comm_cex :
    ∃ c ∈ rrf_fuse 60 1 (1/2) [({id := "a"} : Candidate)] [({id := "b"} : Candidate)],
      ∃ c' ∈ rrf_fuse 60 1 (1/2) [({id := "b"} : Candidate)] [({id := "a"} : Candidate)],
        c.id = c'.id ∧ c.rrf_score ≠ c'.rrf_score := by
  have e1 : rrf_fuse 60 1 (1/2) [({id := "a"} : Candidate)] [({id := "b"} : Candidate)] =
      [({id := "a", rrf_score := 1/61} : Candidate),
        ({id := "b", rrf_score := 1/122} : Candidate)] := by
    norm_num [rrf_fuse, rrfState, rrfPass, addScore, setItem, mkFused, alookup,
      byRrfDesc, List.insertionSort, List.orderedInsert,
      show ("a" : String) ≠ "b" from by decide, show ("b" : String) ≠ "a" from by decide]
  have e2 : rrf_fuse 60 1 (1/2) [({id := "b"} : Candidate)] [({id := "a"} : Candidate)] =
      [({id := "b", rrf_score := 1/61} : Candidate),
        ({id := "a", rrf_score := 1/122} : Candidate)] := by
    norm_num [rrf_fuse, rrfState, rrfPass, addScore, setItem, mkFused, alookup,
      byRrfDesc, List.insertionSort, List.orderedInsert,
      show ("a" : String) ≠ "b" from by decide, show ("b" : String) ≠ "a" from by decide]
  refine ⟨({id := "a", rrf_score := 1/61} : Candidate), by rw [e1]; simp,
    ({id := "a", rrf_score := 1/122} : Candidate), by rw [e2]; simp, rfl, by norm_num⟩

/-- Claim C5 amended: swapping the channel order of `rrf_fuse` swaps which
per-channel weight applies to each list, so fused scores are preserved exactly
when the weight assignment is; in particular with equal dense and sparse
weights fusion is commutative in channel order. -/
theorem rrf_fuse_comm_amended (K wd ws : ℚ) (A B : List Candidate) (pid : String) :
    fusedScore K wd ws A B pid = fusedScore K ws wd B A pid ∧
    (∀ c ∈ rrf_fuse K wd wd A B, ∀ c' ∈ rrf_fuse K wd wd B A,
      c.id = c'.id → c.rrf_score = c'.rrf_score) := by
  have hswap : ∀ (w1 w2 : ℚ) (q : String),
      fusedScore K w1 w2 A B q = fusedScore K w2 w1 B A q := by
    intro w1 w2 q
    rw [fusedScore_eq, fusedScore_eq]
    by_cases h : q ∈ A.map Candidate.id ∨ q ∈ B.map Candidate.id
    · rw [if_pos h, if_pos (Or.symm h)]
      exact congrArg some (add_comm _ _)
    · rw [if_neg h, if_neg (fun hh => h (Or.symm hh))]
  refine ⟨hswap wd ws pid, ?_⟩
  intro c hc c' hc' hid
  have h1 := rrf_fuse_mem_score K wd wd A B c hc
  have h2 := rrf_fuse_mem_score K wd wd B A c' hc'
  rw [hid, hswap wd wd c'.id, h2] at h1
  exact (Option.some.inj h1).symm

/-- Witness for the amended C5 at a concrete input. -/
theorem rrf_fuse_comm_amended_witness :
    fusedScore 60 1 (1/2) [({id := "a"} : Candidate)] [({id := "b"} : Candidate)] "a" =
      fusedScore 60 (1/2) 1 [({id := "b"} : Candidate)] [({id := "a"} : Candidate)] "a" ∧
    ({id := "a", rrf_score := (1/61 : ℚ)} : Candidate).rrf_score =
      ({id := "a", rrf_score := (1/61 : ℚ)} : Candidate).rrf_score := by
  have e1 : rrf_fuse 60 1 1 [({id := "a"} : Candidate)] [({id := "b"} : Candidate)] =
      [({id := "a", rrf_score := 1/61} : Candidate),
        ({id := "b", rrf_score := 1/61} : Candidate)] := by
    norm_num [rrf_fuse, rrfState, rrfPass, addScore, setItem, mkFused, alookup,
      byRrfDesc, List.insertionSort, List.orderedInsert,
      show ("a" : String) ≠ "b" from by decide, show ("b" : String) ≠ "a" from by decide]
  have e2 : rrf_fuse 60 1 1 [({id := "b"} : Candidate)] [({id := "a"} : Candidate)] =
      [({id := "b", rrf_score := 1/61} : Candidate),
        ({id := "a", rrf_score := 1/61} : Candidate)] := by
    norm_num [rrf_fuse, rrfState, rrfPass, addScore, setItem, mkFused, alookup,
      byRrfDesc, List.insertionSort, List.orderedInsert,
      show ("a" : String) ≠ "b" from by decide, show ("b" : String) ≠ "a" from by decide]
  refine ⟨(rrf_fuse_comm_amended 60 1 (1/2)
    [({id := "a"} : Candidate)] [({id := "b"} : Candidate)] "a").1, ?_⟩
  exact (rrf_fuse_comm_amended 60 1 (1/2)
    [({id := "a"} : Candidate)] [({id := "b"} : Candidate)] "a").2
    ({id := "a", rrf_score := (1/61 : ℚ)} : Candidate) (by rw [e1]; simp)
    ({id := "a", rrf_score := (1/61 : ℚ)} : Candidate) (by rw [e2]; simp) rfl

/-- Elimination form for membership in `hybrid_search` output: every returned
candidate is a fused candidate with its `boosted_score` field set. -/
theorem hybrid_search_mem_elim (K wd ws : ℚ) (denseRes : List Candidate)
    (stubRes : Except Unit (List Candidate)) (qs : SparseVec) (k : Nat)
    (boosts : List (String × ℚ)) (c : Candidate)
    (hc : c ∈ hybrid_search K wd ws denseRes stubRes qs k boosts) :
    ∃ c0 ∈ rrf_fuse K wd ws denseRes (sparse_input stubRes qs),
      c = {c0 with boosted_score := boost_score boosts c0} := by
  unfold hybrid_search at hc
  have h1 := List.take_subset k _ hc
  have hperm := List.perm_insertionSort byBoostDesc
    ((rrf_fuse K wd ws denseRes (sparse_input stubRes qs)).map
      (fun it => {it with boosted_score := boost_score boosts it}))
  have h2 := hperm.subset h1
  obtain ⟨c0, hc0, hceq⟩ := List.mem_map.mp h2
  exact ⟨c0, hc0, hceq.symm⟩

theorem boost_score_eq_of_fields (boosts : List (String × ℚ)) (c0 c : Candidate)
    (hp : c.payload = c0.payload) (hr : c.rrf_score = c0.rrf_score) :
    boost_score boosts c = boost_score boosts c0 := by
  unfold boost_score
  rw [hp, hr]

/-- Claim C4: for every candidate returned by `hybrid_search`, `boosted_score`
is `rrf_score` times the boost factor when the (lowercased) `page_type` matches
a `boosts` key and `rrf_score` otherwise; and `rrf_score` is the
boost-independent fused score, so any two runs differing only in `boosts`
assign each candidate id identical `rrf_score`s. -/
theorem hybrid_search_boost (K wd ws : ℚ) (denseRes : List Candidate)
    (stubRes : Except Unit (List Candidate)) (qs : SparseVec) (k : Nat)
    (boosts : List (String × ℚ)) (c : Candidate)
    (hc : c ∈ hybrid_search K wd ws denseRes stubRes qs k boosts) :
    (∀ f : ℚ, pyLower ((c.payload.page_type).getD "") ≠ "" →
      alookup (pyLower ((c.payload.page_type).getD "")) boosts = some f →
      c.boosted_score = c.rrf_score * f) ∧
    (alookup (pyLower ((c.payload.page_type).getD "")) boosts = none →
      c.boosted_score = c.rrf_score) ∧
    (pyLower ((c.payload.page_type).getD "") = "" →
      c.boosted_score = c.rrf_score) ∧
    (fusedScore K wd ws denseRes (sparse_input stubRes qs) c.id = some c.rrf_score) ∧
    (∀ (boosts' : List (String × ℚ)) (c' : Candidate),
      c' ∈ hybrid_search K wd ws denseRes stubRes qs k boosts' → c'.id = c.id →
      c'.rrf_score = c.rrf_score) := by
  obtain ⟨c0, hc0, hceq⟩ := hybrid_search_mem_elim K wd ws denseRes stubRes qs k boosts c hc
  have hbs : c.boosted_score = boost_score boosts c := by
    rw [hceq]
    exact (boost_score_eq_of_fields boosts c0 _ rfl rfl).symm ▸ rfl
  have hfs : fusedScore K wd ws denseRes (sparse_input stubRes qs) c.id =
      some c.rrf_score := by
    have h0 := rrf_fuse_mem_score K wd ws denseRes (sparse_input stubRes qs) c0 hc0
    rw [hceq]
    exact h0
  refine ⟨?_, ?_, ?_, hfs, ?_⟩
  · intro f hne hlk
    rw [hbs]
    unfold boost_score
    rw [if_pos hne, hlk]
  · intro hlk
    rw [hbs]
    unfold boost_score
    by_cases hne : pyLower ((c.payload.page_type).getD "") ≠ ""
    · rw [if_pos hne, hlk]
    · rw [if_neg hne]
  · intro hemp
    rw [hbs]
    unfold boost_score
    rw [if_neg (by simp [hemp])]
  · intro boosts' c' hc' hid
    obtain ⟨c0', hc0', hceq'⟩ :=
      hybrid_search_mem_elim K wd ws denseRes stubRes qs k boosts' c' hc'
    have hfs' := rrf_fuse_mem_score K wd ws denseRes (sparse_input stubRes qs) c0' hc0'
    have hfs'' : fusedScore K wd ws denseRes (sparse_input stubRes qs) c'.id =
        some c'.rrf_score := by
      rw [hceq']
      exact hfs'
    rw [hid, hfs] at hfs''
    exact (Option.some.inj hfs'').symm

/-- Witness for C4 at a concrete input: one dense hit with `page_type`
`"Guide"` and boosts `{"guide": 2}`; its boosted score is twice its RRF score. -/
theorem hybrid_search_boost_witness :
    (cGuideOut ∈ hybrid_search 60 1 (1/2) [cGuide] (.error ()) ⟨[], []⟩ 20
      [("guide", 2)]) ∧
    cGuideOut.boosted_score = cGuideOut.rrf_score * 2 := by
  have e : hybrid_search 60 1 (1/2) [cGuide] (.error ()) ⟨[], []⟩ 20
      [("guide", 2)] = [cGuideOut] := by
    norm_num [hybrid_search, sparse_input, sparse_res_of, rrf_fuse, rrfState, rrfPass,
      addScore, setItem, mkFused, alookup, boost_score, byRrfDesc, byBoostDesc,
      cGuide, cGuideOut, List.insertionSort, List.orderedInsert,
      show pyLower "Guide" = "guide" from by decide,
      show ("guide" : String) ≠ "" from by decide]
  have hmem : cGuideOut ∈ hybrid_search 60 1 (1/2) [cGuide] (.error ()) ⟨[], []⟩ 20
      [("guide", 2)] := by
    rw [e]
    simp
  refine ⟨hmem, ?_⟩
  exact (hybrid_search_boost 60 1 (1/2) [cGuide] (.error ()) ⟨[], []⟩ 20
    [("guide", 2)] _ hmem).1 2 (by decide) (by decide)

theorem char_toLower_not_upper (ch : Char) : (Char.toLower ch).isUpper = false := by
  unfold Char.toLower
  by_cases h : ch.toNat ≥ 65 ∧ ch.toNat ≤ 90
  · rw [if_pos h]
    have hvalid : (ch.toNat + 32).isValidChar := Or.inl (by omega)
    rw [Char.ofNat, dif_pos hvalid]
    have hton : (Char.ofNatAux (ch.toNat + 32) hvalid).toNat = ch.toNat + 32 := by
      simp [Char.ofNatAux, Char.toNat, UInt32.toNat]
    simp only [Char.isUpper]
    have h90 : ¬ ((Char.ofNatAux (ch.toNat + 32) hvalid).val ≤ 90) := by
      rw [UInt32.le_def, BitVec.le_def]
      have hbv : (Char.ofNatAux (ch.toNat + 32) hvalid).val.toBitVec.toNat =
          ch.toNat + 32 := hton
      rw [hbv]
      norm_num
      omega
    simp [h90]
  · rw [if_neg h]
    simp only [Char.isUpper]
    rcases Decidable.not_and_iff_or_not.mp h with h1 | h2
    · have hlt : ¬ ((65 : UInt32) ≤ ch.val) := by
        rw [UInt32.le_def, BitVec.le_def]
        have he : ch.val.toBitVec.toNat = ch.toNat := rfl
        rw [he]
        norm_num
        omega
      simp [hlt]
    · have hgt : ¬ (ch.val ≤ (90 : UInt32)) := by
        rw [UInt32.le_def, BitVec.le_def]
        have he : ch.val.toBitVec.toNat = ch.toNat := rfl
        rw [he]
        norm_num
        omega
      simp [hgt]

/-- The output of the embedded `str.lower()` contains no uppercase letter. -/
theorem pyLower_no_upper (s : String) :
    ∀ ch ∈ (pyLower s).data, ch.isUpper = false := by
  intro ch hch
  have hch' : ch ∈ s.data.map Char.toLower := hch
  obtain ⟨c0, _, heq⟩ := List.mem_map.mp hch'
  rw [← heq]
  exact char_toLower_not_upper c0

/-- Every candidate returned by `hybrid_search` carries
`boosted_score = boost_score(it)` computed from its own fields. -/
theorem hybrid_search_mem_boosted (K wd ws : ℚ) (denseRes : List Candidate)
    (stubRes : Except Unit (List Candidate)) (qs : SparseVec) (k : Nat)
    (boosts : List (String × ℚ)) (c : Candidate)
    (hc : c ∈ hybrid_search K wd ws denseRes stubRes qs k boosts) :
    c.boosted_score = boost_score boosts c := by
  obtain ⟨c0, _, hceq⟩ := hybrid_search_mem_elim K wd ws denseRes stubRes qs k boosts c hc
  rw [hceq]
  exact (boost_score_eq_of_fields boosts c0 _ rfl rfl).symm

/-- Claim C10: boost matching lowercases only the candidate's `page_type`
while boost keys are used verbatim: a candidate whose `page_type` lowercases
to a present key receives the factor, and the lookup key can never equal a
boosts key containing an uppercase letter, so such a key is never applied. -/
theorem hybrid_search_boost_case (K wd ws : ℚ) (denseRes : List Candidate)
    (stubRes : Except Unit (List Candidate)) (qs : SparseVec) (k : Nat)
    (boosts : List (String × ℚ)) (c : Candidate)
    (hc : c ∈ hybrid_search K wd ws denseRes stubRes qs k boosts) :
    (∀ (pt : String) (f : ℚ), c.payload.page_type = some pt → pyLower pt ≠ "" →
      alookup (pyLower pt) boosts = some f → c.boosted_score = c.rrf_score * f) ∧
    (∀ key : String, (∃ ch ∈ key.data, ch.isUpper = true) →
      pyLower ((c.payload.page_type).getD "") ≠ key) := by
  have hbs := hybrid_search_mem_boosted K wd ws denseRes stubRes qs k boosts c hc
  constructor
  · intro pt f hpt hne hlk
    rw [hbs]
    unfold boost_score
    rw [hpt]
    simp only [Option.getD_some]
    rw [if_pos hne, hlk]
  · rintro key ⟨ch, hch, hup⟩ heq
    have hfalse := pyLower_no_upper ((c.payload.page_type).getD "") ch (by rw [heq]; exact hch)
    rw [hup] at hfalse
    exact Bool.true_eq_false.mp hfalse

/-- Witness for C10 at a concrete input: candidate `page_type` `"guide"`,
boosts `{"Guide": 2}`; the capitalized key is not applied. -/
theorem hybrid_search_boost_case_witness :
    (cLowerOut ∈ hybrid_search 60 1 (1/2) [cLower] (.error ()) ⟨[], []⟩ 20
      [("Guide", 2)]) ∧
    pyLower ((cLowerOut.payload.page_type).getD "") ≠ "Guide" := by
  have e : hybrid_search 60 1 (1/2) [cLower] (.error ()) ⟨[], []⟩ 20
      [("Guide", 2)] = [cLowerOut] := by
    norm_num [hybrid_search, sparse_input, sparse_res_of, rrf_fuse, rrfState, rrfPass,
      addScore, setItem, mkFused, alookup, boost_score, byRrfDesc, byBoostDesc,
      cLower, cLowerOut, List.insertionSort, List.orderedInsert,
      show pyLower "guide" = "guide" from by decide,
      show ("guide" : String) ≠ "" from by decide,
      show ¬ (("Guide" : String) = "guide") from by decide]
  have hmem : cLowerOut ∈ hybrid_search 60 1 (1/2) [cLower] (.error ()) ⟨[], []⟩ 20
      [("Guide", 2)] := by
    rw [e]
    simp
  refine ⟨hmem, ?_⟩
  exact (hybrid_search_boost_case 60 1 (1/2) [cLower] (.error ()) ⟨[], []⟩ 20
    [("Guide", 2)] _ hmem).2 "Guide" (by decide)

/-- Claim C2 (divergence of the code from the intended contract): at an input
with a non-empty sparse query (`indices = ["5"]`, `values = [2/5]`) and two
dense hits, `hybrid_search` fuses with an empty sparse list whether the
placeholder limit-0 call succeeds (returning no hits) or raises, so every
candidate's fused score is exactly its dense RRF contribution — no sparse
similarity search contributes hits. -/
theorem hybrid_search_sparse_stub_eval :
    hybrid_search 60 1 (1/2) [({id := "a"} : Candidate), ({id := "b"} : Candidate)]
        (.ok []) ⟨["5"], [2/5]⟩ 20 [] =
      [({id := "a", rrf_score := 1/61, boosted_score := 1/61} : Candidate),
        ({id := "b", rrf_score := 1/62, boosted_score := 1/62} : Candidate)] ∧
    hybrid_search 60 1 (1/2) [({id := "a"} : Candidate), ({id := "b"} : Candidate)]
        (.error ()) ⟨["5"], [2/5]⟩ 20 [] =
      [({id := "a", rrf_score := 1/61, boosted_score := 1/61} : Candidate),
        ({id := "b", rrf_score := 1/62, boosted_score := 1/62} : Candidate)] := by
  constructor <;>
    norm_num [hybrid_search, sparse_input, sparse_res_of, rrf_fuse, rrfState, rrfPass,
      addScore, setItem, mkFused, alookup, boost_score, pyLower, byRrfDesc, byBoostDesc,
      List.insertionSort, List.orderedInsert,
      show ("a" : String) ≠ "b" from by decide,
      show ("b" : String) ≠ "a" from by decide]

theorem applyScores_length :
    ∀ (cs : List Candidate) (ss : List ℚ), (applyScores cs ss).length = cs.length := by
  intro cs
  induction cs with
  | nil => intro ss; cases ss <;> rfl
  | cons c t ih =>
    intro ss
    cases ss with
    | nil => rfl
    | cons s st => simp [applyScores, ih st]

theorem applyScores_all_some :
    ∀ (cs : List Candidate) (ss : List ℚ), cs.length ≤ ss.length →
      ∀ c ∈ applyScores cs ss, (c.rerank_score).isSome = true := by
  intro cs
  induction cs with
  | nil => intro ss _ c hc; cases ss <;> simp [applyScores] at hc
  | cons c0 t ih =>
    intro ss hlen c hc
    cases ss with
    | nil => simp at hlen
    | cons s st =>
      simp only [applyScores, List.mem_cons] at hc
      rcases hc with hc | hc
      · rw [hc]
        rfl
      · exact ih st (by simpa using hlen) c hc

/-- Claim C9: `rerank` mutates its input list: on a non-empty candidate list
(with one score per candidate) the caller's list object ends up re-sorted
descending by the newly added `rerank_score` key — a permutation of the input
with scores attached, every element carrying `rerank_score` — and the returned
value is the `top_n`-prefix of that same mutated list. -/
theorem rerank_mutates (scores : List ℚ) (candidates : List Candidate) (top_n : Nat)
    (hne : candidates ≠ []) (hlen : scores.length = candidates.length) :
    (rerank scores candidates top_n).2 = (rerank scores candidates top_n).1.take top_n ∧
    (rerank scores candidates top_n).1.Perm (applyScores candidates scores) ∧
    List.Sorted byRerankDesc (rerank scores candidates top_n).1 ∧
    (∀ c ∈ (rerank scores candidates top_n).1, (c.rerank_score).isSome = true) ∧
    (rerank scores candidates top_n).1.length = candidates.length ∧
    (rerank scores candidates top_n).2.length ≤ top_n := by
  have hni : candidates.isEmpty = false := by
    cases candidates with
    | nil => exact absurd rfl hne
    | cons c t => rfl
  have hperm : (rerank scores candidates top_n).1.Perm (applyScores candidates scores) := by
    unfold rerank
    simp only [hni, Bool.false_eq_true, if_false]
    exact List.perm_insertionSort byRerankDesc _
  refine ⟨?_, hperm, ?_, ?_, ?_, ?_⟩
  · unfold rerank
    simp [hni]
  · unfold rerank
    simp only [hni, Bool.false_eq_true, if_false]
    exact List.sorted_insertionSort byRerankDesc _
  · intro c hc
    exact applyScores_all_some candidates scores (le_of_eq hlen.symm) c
      (hperm.subset hc)
  · rw [hperm.length_eq, applyScores_length]
  · unfold rerank
    simp only [hni, Bool.false_eq_true, if_false]
    exact List.length_take_le top_n _

/-- Witness for C9 at a concrete input: two candidates, scores `[1/10, 9/10]`,
`top_n = 1`. -/
theorem rerank_mutates_witness :
    (([({id := "x"} : Candidate), ({id := "y"} : Candidate)] : List Candidate) ≠ []) ∧
    ([(1 : ℚ)/10, 9/10].length =
      [({id := "x"} : Candidate), ({id := "y"} : Candidate)].length) ∧
    (rerank [1/10, 9/10] [({id := "x"} : Candidate), ({id := "y"} : Candidate)] 1).2 =
      (rerank [1/10, 9/10] [({id := "x"} : Candidate), ({id := "y"} : Candidate)] 1).1.take 1 := by
  refine ⟨by simp, rfl, ?_⟩
  exact (rerank_mutates [1/10, 9/10]
    [({id := "x"} : Candidate), ({id := "y"} : Candidate)] 1 (by simp) rfl).1

/-- Claim C6: `generate_answer` tries `DEFAULT_LLM` (here `"YANDEX"`), then
`"GPT5"`, then `"DEEPSEEK"`; the first successful completion determines the
answer and the later providers are not called; raising providers are skipped;
if all three fail the fixed providers-unavailable string is returned (and
nothing is raised — the embedding is a total function). -/
theorem generate_answer_fallback (fmt : String → String) (d : String)
    (y g dk : Except Unit String) (hd : d = "YANDEX") :
    (∀ t, y = .ok t → generate_answer fmt d y g dk = (fmt t, ["YANDEX"])) ∧
    (∀ t, y = .error () → g = .ok t →
      generate_answer fmt d y g dk = (fmt t, ["YANDEX", "GPT5"])) ∧
    (∀ t, y = .error () → g = .error () → dk = .ok t →
      generate_answer fmt d y g dk = (fmt t, ["YANDEX", "GPT5", "DEEPSEEK"])) ∧
    (y = .error () → g = .error () → dk = .error () →
      generate_answer fmt d y g dk =
        (providersUnavailable, ["YANDEX", "GPT5", "DEEPSEEK"])) := by
  subst hd
  refine ⟨?_, ?_, ?_, ?_⟩
  · intro t h1
    subst h1
    rfl
  · intro t h1 h2
    subst h1
    subst h2
    rfl
  · intro t h1 h2 h3
    subst h1
    subst h2
    subst h3
    rfl
  · intro h1 h2 h3
    subst h1
    subst h2
    subst h3
    rfl

/-- Witness for C6 at a concrete input: Yandex raises, GPT5 answers `"B"`,
DeepSeek is never called. -/
theorem generate_answer_fallback_witness :
    ("YANDEX" : String) = "YANDEX" ∧
    generate_answer id "YANDEX" (.error ()) (.ok "B") (.error ()) =
      ("B", ["YANDEX", "GPT5"]) := by
  refine ⟨rfl, ?_⟩
  exact (generate_answer_fallback id "YANDEX" (.error ()) (.ok "B") (.error ())
    rfl).2.1 "B" rfl rfl

/-- Claim C8 counterexample: `embed_sparse` CAN raise.  The call succeeds and
the body parses as the dict `{"t": null}`, which lacks `indices`/`values`, so
the unprotected conversion runs and `float(None)` raises `TypeError` out of
the function instead of returning the empty sparse vector. -/
theorem embed_sparse_raises_cex :
    embed_sparse true (.ok (.dict [("t", JVal.null)])) = .error () ∧
    embed_sparse true (.ok (.dict [("t", JVal.null)])) ≠
      .ok (.vec [] []) := by
  refine ⟨rfl, ?_⟩
  intro h
  have h2 : (Except.error () : Except Unit SparseResult) = .ok (.vec [] []) := h
  exact Except.noConfusion h2

/-- Definitional reduction of `embed_sparse` on a successfully parsed dict. -/
theorem embed_sparse_dict (pairs : List (String × JVal)) :
    embed_sparse true (.ok (.dict pairs)) =
      (if "indices" ∉ pairs.map Prod.fst ∨ "values" ∉ pairs.map Prod.fst then
        match mapFloat (pairs.map Prod.snd) with
        | .error _ => .error ()
        | .ok vs => .ok (.vec (pairs.map Prod.fst) vs)
      else .ok (.raw (.dict pairs))) := rfl

theorem mapFloat_num (qs : List ℚ) : mapFloat (qs.map JVal.num) = .ok qs := by
  induction qs with
  | nil => rfl
  | cons q t ih => simp [mapFloat, pyFloat, ih]

theorem mapFloat_error (l : List JVal) (hv : ∃ v ∈ l, pyFloat v = .error ()) :
    mapFloat l = .error () := by
  induction l with
  | nil => simp at hv
  | cons v t ih =>
    obtain ⟨w, hw, hwe⟩ := hv
    rcases List.mem_cons.mp hw with heq | ht
    · subst heq
      simp [mapFloat, hwe]
    · cases hpv : pyFloat v with
      | error e => simp [mapFloat, hpv]
      | ok q => simp [mapFloat, hpv, ih ⟨w, ht, hwe⟩]

/-- Claim C8 amended: a failure of the guarded remote call itself (timeout,
non-2xx, unparseable body) yields the empty sparse vector without raising; a
term-to-weight mapping reply whose weights are all float-convertible is
converted to `{indices, values}` pairing each term with its own weight in
iteration order (their zip is the original mapping); but the conversion is
outside the try/except, so a parseable dict reply lacking `indices`/`values`
with any non-convertible weight raises out of `embed_sparse`, and a dict
already carrying both keys, or a non-dict reply, is returned unconverted. -/
theorem embed_sparse_amended :
    (∀ u : Bool, embed_sparse u (.error ()) = .ok (.vec [] [])) ∧
    (∀ ps : List (String × ℚ),
      ("indices" ∉ ps.map Prod.fst ∨ "values" ∉ ps.map Prod.fst) →
      embed_sparse true (.ok (.dict (ps.map (fun p => (p.1, JVal.num p.2))))) =
        .ok (.vec (ps.map Prod.fst) (ps.map Prod.snd)) ∧
      (ps.map Prod.fst).zip (ps.map Prod.snd) = ps) ∧
    (∀ pairs : List (String × JVal),
      ("indices" ∉ pairs.map Prod.fst ∨ "values" ∉ pairs.map Prod.fst) →
      (∃ v ∈ pairs.map Prod.snd, pyFloat v = .error ()) →
      embed_sparse true (.ok (.dict pairs)) = .error ()) ∧
    (∀ pairs : List (String × JVal),
      "indices" ∈ pairs.map Prod.fst → "values" ∈ pairs.map Prod.fst →
      embed_sparse true (.ok (.dict pairs)) = .ok (.raw (.dict pairs))) ∧
    (∀ q : ℚ, embed_sparse true (.ok (.num q)) = .ok (.raw (.num q))) ∧
    (∀ es : List JVal, embed_sparse true (.ok (.arr es)) = .ok (.raw (.arr es))) := by
  refine ⟨?_, ?_, ?_, ?_, ?_, ?_⟩
  · intro u
    cases u <;> rfl
  · intro ps hkeys
    have hmapkeys : (ps.map (fun p => (p.1, JVal.num p.2))).map Prod.fst =
        ps.map Prod.fst := by
      rw [List.map_map]
      rfl
    constructor
    · rw [embed_sparse_dict, hmapkeys, if_pos hkeys]
      have hvals : (ps.map (fun p => (p.1, JVal.num p.2))).map Prod.snd =
          (ps.map Prod.snd).map JVal.num := by
        rw [List.map_map, List.map_map]
        rfl
      rw [hvals, mapFloat_num]
    · rw [List.zip_map']
      simp
  · intro pairs hkeys hbad
    rw [embed_sparse_dict, if_pos hkeys, mapFloat_error (pairs.map Prod.snd) hbad]
  · intro pairs hi hv
    rw [embed_sparse_dict, if_neg]
    push_neg
    exact ⟨hi, hv⟩
  · intro q
    rfl
  · intro es
    rfl

/-- Witness for the amended C8 at a concrete input: the mapping reply
`{"t": 0.5}` converts to `indices = ["t"]`, `values = [0.5]`. -/
theorem embed_sparse_amended_witness :
    ("indices" ∉ ([("t", (1 : ℚ)/2)].map Prod.fst) ∨
      "values" ∉ ([("t", (1 : ℚ)/2)].map Prod.fst)) ∧
    embed_sparse true
        (.ok (.dict ([("t", (1 : ℚ)/2)].map (fun p => (p.1, JVal.num p.2))))) =
      .ok (.vec (["t"]) ([(1 : ℚ)/2])) := by
  refine ⟨?_, ?_⟩
  · left
    simp
  · exact ((embed_sparse_amended).2.1 [("t", (1 : ℚ)/2)] (by left; simp)).1

/-- Claim C7: once query processing and the dense embedding have succeeded, a
hybrid search that returns an empty candidate list yields the `no_results`
envelope with empty sources, and the `search_failed` envelope is produced
exactly when the hybrid search raises. -/
theorem handle_query_search_errors (o : Outcomes) (channel chat_id : String)
    (qpv : String × List (String × ℚ)) (dv : List ℚ)
    (hqp : o.qp = .ok qpv) (hdense : o.dense = .ok dv) :
    (o.search = .ok [] →
      (handle_query o channel chat_id).error = some "no_results" ∧
      (handle_query o channel chat_id).sources = []) ∧
    ((handle_query o channel chat_id).error = some "search_failed" ↔
      o.search = .error ()) := by
  constructor
  · intro hs
    constructor <;> simp [handle_query, hqp, hdense, hs]
  · constructor
    · intro herr
      cases hs : o.search with
      | error e =>
        cases e
        rfl
      | ok candidates =>
        exfalso
        cases candidates with
        | nil =>
          have hval : (handle_query o channel chat_id).error = some "no_results" := by
            simp [handle_query, hqp, hdense, hs]
          rw [hval] at herr
          exact absurd (Option.some.inj herr) (by decide)
        | cons c cs =>
          cases hllm : o.llm with
          | error e2 =>
            have hval : (handle_query o channel chat_id).error = some "llm_failed" := by
              simp [handle_query, hqp, hdense, hs, hllm]
            rw [hval] at herr
            exact absurd (Option.some.inj herr) (by decide)
          | ok ans =>
            have hval : (handle_query o channel chat_id).error = none := by
              simp [handle_query, hqp, hdense, hs, hllm]
            rw [hval] at herr
            exact Option.noConfusion herr
    · intro hs
      simp [handle_query, hqp, hdense, hs]

/-- Witness for C7 at concrete stage outcomes: an empty successful search
yields the `no_results` envelope. -/
theorem handle_query_search_errors_witness :
    exOutcomesEmpty.qp = .ok ("q", []) ∧
    exOutcomesEmpty.dense = .ok [] ∧
    (handle_query exOutcomesEmpty "telegram" "1").error = some "no_results" := by
  refine ⟨rfl, rfl, ?_⟩
  exact ((handle_query_search_errors exOutcomesEmpty "telegram" "1" ("q", []) []
    rfl rfl).1 rfl).1

/-- Claim C3 counterexample: a successful run whose two reranked docs share the
url "https://e/a" yields a `sources` list with that url twice — `handle_query`
does not deduplicate sources by url. -/
theorem handle_query_sources_not_dedup_cex :
    (handle_query exOutcomesDup "telegram" "1").sources =
      [⟨"T1", "https://e/a"⟩, ⟨"T2", "https://e/a"⟩] ∧
    ¬ (((handle_query exOutcomesDup "telegram" "1").sources.map Source.url).Nodup) := by
  have e : (handle_query exOutcomesDup "telegram" "1").sources =
      [⟨"T1", "https://e/a"⟩, ⟨"T2", "https://e/a"⟩] := by
    simp [handle_query, exOutcomesDup, extract_sources, cUrl1, cUrl2,
      show ("https://e/a" : String) ≠ "" from by decide]
  refine ⟨e, ?_⟩
  rw [e]
  decide

theorem extract_sources_eq (docs : List Candidate) :
    extract_sources docs =
      (docs.filter (fun d => decide (((d.payload.url).getD "") ≠ ""))).map
        (fun d => ⟨(d.payload.title).getD "Документация", (d.payload.url).getD ""⟩) := by
  induction docs with
  | nil => rfl
  | cons d t ih =>
    unfold extract_sources
    unfold extract_sources at ih
    rw [List.filterMap_cons, List.filter_cons]
    cases hu : d.payload.url with
    | none => simp [hu, ih]
    | some u =>
      by_cases hue : u = ""
      · subst hue
        simp [hu, ih]
      · simp [hu, hue, ih]

/-- Claim C3 amended: for every successful pipeline run, `sources` lists one
`{title, url}` entry per reranked doc whose payload has a truthy url, in
rerank order with titles defaulting to "Документация"; docs without a url are
omitted, but urls are NOT deduplicated (a url shared by several docs appears
once per doc, see the counterexample). -/
theorem handle_query_sources_amended (o : Outcomes) (channel chat_id : String)
    (qpv : String × List (String × ℚ)) (dv : List ℚ)
    (cands docs : List Candidate) (ans : String)
    (hqp : o.qp = .ok qpv) (hdense : o.dense = .ok dv) (hse : o.search = .ok cands)
    (hne : cands ≠ []) (hrer : o.rer = .ok docs) (hllm : o.llm = .ok ans) :
    (handle_query o channel chat_id).answer = some ans ∧
    (handle_query o channel chat_id).sources =
      (docs.filter (fun d => decide (((d.payload.url).getD "") ≠ ""))).map
        (fun d => ⟨(d.payload.title).getD "Документация", (d.payload.url).getD ""⟩) := by
  have hni : cands.isEmpty = false := by
    cases cands with
    | nil => exact absurd rfl hne
    | cons c t => rfl
  constructor
  · simp [handle_query, hqp, hdense, hse, hni, hrer, hllm]
  · rw [← extract_sources_eq]
    simp [handle_query, hqp, hdense, hse, hni, hrer, hllm]

/-- Witness for the amended C3 at concrete stage outcomes. -/
theorem handle_query_sources_amended_witness :
    exOutcomesDup.qp = .ok ("q", []) ∧
    exOutcomesDup.search = .ok [cUrl1] ∧
    ([cUrl1] : List Candidate) ≠ [] ∧
    (handle_query exOutcomesDup "telegram" "1").answer = some "ans" := by
  refine ⟨rfl, rfl, by simp, ?_⟩
  exact (handle_query_sources_amended exOutcomesDup "telegram" "1" ("q", []) []
    [cUrl1] [cUrl1, cUrl2] "ans" rfl rfl rfl (by simp) rfl rfl).1

end RAG
